import Mathlib

/-!
Verification of the gphoto2youtube utility scripts.

The repository holds two command-line tools:
* concat_videos.py — scans a directory for video files, sorts them by file
  name, writes an ffmpeg concat manifest, invokes ffmpeg, and cleans up.
* upload_to_youtube.py — checks the input file, obtains OAuth credentials
  (cache / refresh / interactive flow), and performs a resumable chunked
  upload, printing progress.

Both are embedded shallowly: every externally visible action (console print,
file creation or removal, subprocess invocation, network call) becomes a
constructor of an effect type, and each Python function becomes a Lean
function from its inputs (plus the relevant world state) to the list of
effects it performs together with its result.
-/

namespace GPhotoToYouTube

/-- One entry of a directory listing, as concat_videos.py observes it:
its file name, the absolute path that Path.resolve returns for it, whether
it is a regular file, and the formatted modification time that the script
prints next to it. -/
structure DirEntry where
  name : String
  absPath : String
  isFile : Bool
  mtimeStr : String
deriving DecidableEq, Repr

/-- Index of the last occurrence of a dot in a character list, as Python
str.rfind of a dot computes it (none when no dot occurs). -/
def rfindDotAux : List Char → Nat → Option Nat
  | [], _ => none
  | c :: cs, i =>
    match rfindDotAux cs (i + 1) with
    | some j => some j
    | none => if c = '.' then some i else none

/-- Index of the last dot of a character list, scanning from position 0. -/
def rfindDot (s : List Char) : Option Nat :=
  rfindDotAux s 0

/-- Embedding of pathlib PurePath.suffix on a bare file name: the substring
from the last dot on, unless that dot is the first or the last character,
in which case the suffix is empty. -/
def pathSuffix (name : String) : String :=
  let cs := name.toList
  match rfindDot cs with
  | none => ""
  | some i => if 0 < i ∧ i + 1 < cs.length then String.mk (cs.drop i) else ""

/-- The VIDEO_EXTENSIONS set of concat_videos.py. -/
def VIDEO_EXTENSIONS : List String :=
  [".mp4", ".mov", ".avi", ".mkv", ".m4v", ".flv", ".wmv"]

/-- Character-wise ASCII lowercasing of a string, the embedding of the
Python str.lower call applied to a file suffix. -/
def lowerStr (s : String) : String :=
  String.mk (s.toList.map Char.toLower)

/-- The per-entry test of find_videos: the lowercased suffix of the name is
one of the supported video extensions. -/
def recognizedName (name : String) : Bool :=
  VIDEO_EXTENSIONS.contains (lowerStr (pathSuffix name))

/-- Effects performed by concat_videos.py: console prints, file writes and
removals in the working directory, and the ffmpeg subprocess invocation. -/
inductive CEff where
  | print (msg : String)
  | writeFile (path : String) (content : String)
  | removeFile (path : String)
  | runFfmpeg (concatFile : String) (outputFile : String)
deriving DecidableEq, Repr

/-- Embedding of find_videos: given the directory argument and the directory
listing (none when the directory does not exist), print an error and return
the empty list for a missing directory, otherwise keep the immediate entries
that are regular files with a recognized extension, in listing order. -/
def find_videos (directory : String) (listing : Option (List DirEntry)) :
    List CEff × List DirEntry :=
  match listing with
  | none =>
    ([CEff.print ("エラー: ディレクトリが見つかりません: " ++ directory)], [])
  | some entries =>
    ([], entries.filter fun e => e.isFile && recognizedName e.name)

/-- Lexicographic less-or-equal on character lists by code point, the
ordering Python uses to compare strings. -/
def charListLe : List Char → List Char → Bool
  | [], _ => true
  | _ :: _, [] => false
  | a :: as, b :: bs =>
    if a < b then true else if b < a then false else charListLe as bs

/-- Lexicographic less-or-equal on strings by code point. -/
def strLe (a b : String) : Bool :=
  charListLe a.toList b.toList

/-- Insert an entry into a list sorted by name, before the first strictly
larger name and after equal names already present, matching the stable
behaviour of Python sorted with the name as key. -/
def insertByName (e : DirEntry) : List DirEntry → List DirEntry
  | [] => [e]
  | x :: xs => if strLe e.name x.name then e :: x :: xs else x :: insertByName e xs

/-- Stable sort of directory entries by file name, the pure content of
sort_videos_by_name. -/
def sortedByName : List DirEntry → List DirEntry
  | [] => []
  | x :: xs => insertByName x (sortedByName xs)

/-- The line sort_videos_by_name prints for the entry at (0-based) index i
of the sorted list. -/
def sortListingLine (i : Nat) (e : DirEntry) : String :=
  "  " ++ toString (i + 1) ++ ". " ++ e.name ++ " (更新日時: " ++ e.mtimeStr ++ ")"

/-- Embedding of sort_videos_by_name: sorts the files by name and prints the
header plus one numbered line per sorted file. -/
def sort_videos_by_name (files : List DirEntry) : List CEff × List DirEntry :=
  let sorted := sortedByName files
  (CEff.print "結合する動画ファイル（ファイル名順）:" ::
      sorted.enum.map (fun p => CEff.print (sortListingLine p.1 p.2)),
   sorted)

/-- The manifest line written for one video file: the word file, a space,
and the absolute path wrapped in single quotes, ended by a newline. -/
def manifestLine (e : DirEntry) : String :=
  "file \x27" ++ e.absPath ++ "\x27\n"

/-- The full content create_concat_file writes: the manifest lines of the
given files, concatenated in order. -/
def concatFileContent (files : List DirEntry) : String :=
  String.join (files.map manifestLine)

/-- Embedding of create_concat_file: writes the manifest and prints the
confirmation message. -/
def create_concat_file (files : List DirEntry) (concatFile : String) : List CEff :=
  [CEff.writeFile concatFile (concatFileContent files),
   CEff.print ("\n結合リストファイルを作成しました: " ++ concatFile)]

/-- The error and installation-hint messages concat_videos prints when the
ffmpeg executable is not found. -/
def ffmpegMissingMsgs : List CEff :=
  [CEff.print "エラー: ffmpegがインストールされていません",
   CEff.print "以下のコマンドでインストールしてください:",
   CEff.print "  Ubuntu/Debian: sudo apt-get install ffmpeg",
   CEff.print "  macOS: brew install ffmpeg"]

/-- Embedding of concat_videos: checks that ffmpeg is installed (printing
the hints and failing otherwise), then invokes ffmpeg on the manifest and
reports success or failure. The Bool result is false exactly when the
Python function calls sys.exit(1). -/
def concat_videos (ffmpegInstalled ffmpegSucceeds : Bool)
    (concatFile outputFile : String) : List CEff × Bool :=
  if ffmpegInstalled = false then (ffmpegMissingMsgs, false)
  else
    let pre := [CEff.print "\n動画を結合中...",
                CEff.print ("出力ファイル: " ++ outputFile),
                CEff.runFfmpeg concatFile outputFile]
    if ffmpegSucceeds then
      (pre ++ [CEff.print ("\n✓ 結合が完了しました: " ++ outputFile)], true)
    else
      (pre ++ [CEff.print "\nエラー: 動画の結合に失敗しました",
               CEff.print "詳細: subprocess.CalledProcessError"], false)

/-- Command-line arguments of concat_videos.py. -/
structure ConcatArgs where
  inputDir : String
  output : String
  keepList : Bool
deriving DecidableEq, Repr

/-- The world state concat_videos.py runs against: the listing of the input
directory (none when it does not exist), and whether ffmpeg is installed
and succeeds. -/
structure ConcatWorld where
  listing : Option (List DirEntry)
  ffmpegInstalled : Bool
  ffmpegSucceeds : Bool
deriving DecidableEq, Repr

/-- The supported-formats message printed when no video file is found. -/
def supportedFormatsMsg : String :=
  "サポートされている形式: " ++ String.intercalate ", " VIDEO_EXTENSIONS

/-- Embedding of concat_videos.py main: returns the effect trace of the run
and the process exit code (0 for success, 1 for every sys.exit(1) path). -/
def concatMain (w : ConcatWorld) (a : ConcatArgs) : List CEff × Nat :=
  let fv := find_videos a.inputDir w.listing
  let searchPrint := CEff.print ("ディレクトリを検索中: " ++ a.inputDir)
  if fv.2.isEmpty then
    (searchPrint :: fv.1 ++
      [CEff.print "動画ファイルが見つかりませんでした",
       CEff.print supportedFormatsMsg], 1)
  else
    let sv := sort_videos_by_name fv.2
    let cv := concat_videos w.ffmpegInstalled w.ffmpegSucceeds "concat_list.txt" a.output
    let base := searchPrint :: fv.1 ++
      [CEff.print ("\n" ++ toString fv.2.length ++ " 個の動画ファイルが見つかりました\n")] ++
      sv.1 ++ create_concat_file sv.2 "concat_list.txt" ++ cv.1
    if cv.2 = false then (base, 1)
    else if a.keepList then (base, 0)
    else (base ++ [CEff.removeFile "concat_list.txt",
                   CEff.print "結合リストファイルを削除しました: concat_list.txt"], 0)

/-! ### Embedding of upload_to_youtube.py -/

/-- The observable fields of a google-auth credential object as the script
reads them: whether an access token is set, whether it is expired, and
whether a refresh token is available. -/
structure Credentials where
  hasToken : Bool
  expired : Bool
  hasRefreshToken : Bool
deriving DecidableEq, Repr

/-- The valid property of a google-auth credential: a token is set and it
is not expired. -/
def Credentials.valid (c : Credentials) : Bool :=
  c.hasToken && !c.expired

/-- Effects performed by upload_to_youtube.py: reading and writing the
token cache, refreshing credentials over the network, running the
interactive OAuth flow, building the API client, submitting the resumable
insert request, and console prints. -/
inductive UEff where
  | loadTokenCache
  | refreshCredentials
  | runOAuthFlow
  | saveTokenCache (c : Credentials)
  | buildService
  | insertRequest (title description category privacyStatus : String)
      (madeForKids : Bool)
  | print (msg : String)
deriving DecidableEq, Repr

/-- Embedding of get_authenticated_service. The inputs are the cached
credential (none when token.pickle does not exist), the credential state
after a successful refresh, and the credential the interactive flow would
return. The result is the effect trace and the credential the service is
built with. -/
def get_authenticated_service (cache : Option Credentials)
    (refreshedCred flowCred : Credentials) : List UEff × Credentials :=
  match cache with
  | some c =>
    if c.valid then ([UEff.loadTokenCache, UEff.buildService], c)
    else if c.expired && c.hasRefreshToken then
      ([UEff.loadTokenCache, UEff.refreshCredentials,
        UEff.saveTokenCache refreshedCred, UEff.buildService], refreshedCred)
    else
      ([UEff.loadTokenCache, UEff.runOAuthFlow,
        UEff.saveTokenCache flowCred, UEff.buildService], flowCred)
  | none =>
    ([UEff.runOAuthFlow, UEff.saveTokenCache flowCred, UEff.buildService],
     flowCred)

/-- One observed result of request.next_chunk in the upload loop: the
progress percentage the status object reports (none when the status is
None) and the response (none while the upload is still in progress, the
video id once it completes). -/
structure ChunkStep where
  progressPct : Option Nat
  response : Option String
deriving DecidableEq, Repr

/-- The progress print one loop iteration performs: nothing when the status
is None, otherwise the percentage line. -/
def progressPrint (s : ChunkStep) : List UEff :=
  match s.progressPct with
  | some p => [UEff.print ("進捗: " ++ toString p ++ "%")]
  | none => []

/-- The progress prints of a list of loop iterations, in order. -/
def progressPrints : List ChunkStep → List UEff
  | [] => []
  | s :: rest => progressPrint s ++ progressPrints rest

/-- Embedding of the while loop of upload_video over the stream of
next_chunk results: returns the number of iterations performed, the prints
emitted, and the completed response, or none when the stream never yields
a response (the Python loop would then never terminate). -/
def pollChunks : List ChunkStep → Option (Nat × List UEff × String)
  | [] => none
  | s :: rest =>
    match s.response with
    | some r => some (1, progressPrint s, r)
    | none =>
      match pollChunks rest with
      | some (n, effs, r) => some (n + 1, progressPrint s ++ effs, r)
      | none => none

/-- Embedding of upload_video: builds the request body from the metadata,
submits the resumable insert request, polls next_chunk until a response is
available, and prints the resulting video id and watch URL. -/
def upload_video (steps : List ChunkStep)
    (videoFile title description category privacyStatus : String) :
    Option (List UEff × String) :=
  match pollChunks steps with
  | none => none
  | some (_, loopEffs, vid) =>
    some (UEff.insertRequest title description category privacyStatus false ::
          UEff.print ("アップロード中: " ++ videoFile) :: loopEffs ++
          [UEff.print ("アップロード完了! 動画ID: " ++ vid),
           UEff.print ("URL: https://www.youtube.com/watch?v=" ++ vid)], vid)

/-- Embedding of os.path.basename on a POSIX path: the part after the last
slash. -/
def basename (p : String) : String :=
  String.mk ((p.toList.reverse.takeWhile fun c => c ≠ '/').reverse)

/-- Embedding of the root part of os.path.splitext on a slash-free name:
split at the last dot provided some earlier character of the name is not a
dot, otherwise return the name unchanged. -/
def splitextRoot (p : String) : String :=
  let cs := p.toList
  match rfindDot cs with
  | none => p
  | some i =>
    if (cs.take i).any (fun c => c ≠ '.') then String.mk (cs.take i) else p

/-- The title upload_to_youtube.py main passes to upload_video: the --title
argument when given, otherwise the base name of the video file without its
extension. -/
def deriveTitle (titleArg : Option String) (videoFile : String) : String :=
  match titleArg with
  | some t => t
  | none => splitextRoot (basename videoFile)

/-- Command-line arguments of upload_to_youtube.py. -/
structure UploadArgs where
  videoFile : String
  title : Option String
  description : String
  privacy : String
deriving DecidableEq, Repr

/-- The world state upload_to_youtube.py runs against: whether the input
file exists, the cached credential, the credential states a refresh or an
interactive flow would produce, and the stream of next_chunk results. -/
structure UploadWorld where
  fileExists : Bool
  tokenCache : Option Credentials
  refreshedCred : Credentials
  flowCred : Credentials
  chunkSteps : List ChunkStep
deriving DecidableEq, Repr

/-- Embedding of upload_to_youtube.py main: the effect trace and exit code
of the run, or none when the upload loop would never terminate. The
existence check runs before anything else; the title is derived before the
authenticated service is built. -/
def uploadMain (w : UploadWorld) (a : UploadArgs) :
    Option (List UEff × Nat) :=
  if w.fileExists = false then
    some ([UEff.print ("エラー: ファイルが見つかりません: " ++ a.videoFile)], 1)
  else
    let title := deriveTitle a.title a.videoFile
    let auth := get_authenticated_service w.tokenCache w.refreshedCred w.flowCred
    match upload_video w.chunkSteps a.videoFile title a.description "22" a.privacy with
    | none => none
    | some (upEffs, _) => some (auth.1 ++ upEffs, 0)

/-! ### Derived traces and concrete data used by the theorems -/

/-- The effect trace of the non-empty part of a concatenator run, up to and
including the concat_videos call, as a function of the world and the
arguments. -/
def concatRunBase (lst : Option (List DirEntry)) (fi fs : Bool) (ad ao : String) :
    List CEff :=
  CEff.print ("ディレクトリを検索中: " ++ ad) :: (find_videos ad lst).1 ++
    [CEff.print ("\n" ++ toString (find_videos ad lst).2.length ++
      " 個の動画ファイルが見つかりました\n")] ++
    (sort_videos_by_name (find_videos ad lst).2).1 ++
    create_concat_file (sort_videos_by_name (find_videos ad lst).2).2 "concat_list.txt" ++
    (concat_videos fi fs "concat_list.txt" ao).1

/-- Directory listing used to instantiate the find_videos claim: one
recognized video file and one unrecognized text file. -/
def sampleScanEntries : List DirEntry :=
  [⟨"a.mp4", "/tmp/a.mp4", true, "2024-01-01 00:00:00"⟩,
   ⟨"notes.txt", "/tmp/notes.txt", true, "2024-01-01 00:00:00"⟩]

/-- Directory entry with an upper-case extension for the case-insensitivity
witness. -/
def upperCaseEntry : DirEntry :=
  ⟨"CLIP.MP4", "/tmp/CLIP.MP4", true, "2024-01-01 00:00:00"⟩

/-- Video listing used for the successful-run witnesses. -/
def sampleRunListing : List DirEntry :=
  [⟨"b.mp4", "/tmp/b.mp4", true, "2024-01-01 00:00:01"⟩,
   ⟨"a.mp4", "/tmp/a.mp4", true, "2024-01-01 00:00:00"⟩]

/-- Single video entry used for the ffmpeg-missing scenarios. -/
def singleVideoEntry : DirEntry :=
  ⟨"a.mp4", "/tmp/a.mp4", true, "2024-01-01 00:00:00"⟩

/-- Chunk stream used for the poll-loop witness: one in-progress call, then
a completing one. -/
def sampleChunkSteps : List ChunkStep :=
  [⟨some 50, none⟩, ⟨some 100, some "vid123"⟩]

/-- Expired credential with a refresh token, for the authentication
witness. -/
def expiredCred : Credentials := ⟨true, true, true⟩

/-- Refreshed credential state used in the authentication witness. -/
def refreshedCredW : Credentials := ⟨true, false, true⟩

/-- Flow-produced credential state used in the authentication witness. -/
def flowCredW : Credentials := ⟨true, false, false⟩

/-! ### The executable comparator agrees with the lexicographic order -/

/-- charListLe decides the negation of the core lexicographic strict order
in the opposite direction. -/
theorem charListLe_iff (as bs : List Char) :
    charListLe as bs = true ↔ ¬ List.lt bs as := by
  induction as generalizing bs with
  | nil =>
    simp only [charListLe, true_iff]
    intro h
    cases h
  | cons a as ih =>
    cases bs with
    | nil =>
      simp only [charListLe, Bool.false_eq_true, false_iff, not_not]
      exact List.lt.nil a as
    | cons b bs =>
      by_cases hab : a < b
      · have hba : ¬ b < a := lt_asymm hab
        simp only [charListLe, if_pos hab, true_iff]
        intro h
        cases h with
        | head _ _ h1 => exact hba h1
        | tail h1 h2 h3 => exact h2 hab
      · by_cases hba : b < a
        · simp only [charListLe, if_neg hab, if_pos hba, Bool.false_eq_true,
            false_iff, not_not]
          exact List.lt.head bs as hba
        · simp only [charListLe, if_neg hab, if_neg hba, ih]
          constructor
          · intro h hc
            cases hc with
            | head _ _ h1 => exact hba h1
            | tail h1 h2 h3 => exact h h3
          · intro h hc
            exact h (List.lt.tail hba hab hc)

/-- The executable comparator strLe agrees with the canonical lexicographic
order on strings. -/
theorem strLe_iff_le (a b : String) : strLe a b = true ↔ a ≤ b := by
  rw [strLe, charListLe_iff, List.lt_iff_lex_lt, ← not_lt]
  exact not_congr (Iff.symm String.lt_iff_toList_lt)

/-! ### Sorting lemmas -/

/-- Inserting an entry yields a permutation of consing it. -/
theorem insertByName_perm (e : DirEntry) (l : List DirEntry) :
    (insertByName e l).Perm (e :: l) := by
  induction l with
  | nil => exact List.Perm.refl _
  | cons x xs ih =>
    by_cases h : strLe e.name x.name = true
    · simp only [insertByName, if_pos h]
      exact List.Perm.refl _
    · simp only [insertByName, if_neg h]
      exact (ih.cons x).trans (List.Perm.swap e x xs)

/-- The sorted list is a permutation of the input. -/
theorem sortedByName_perm (l : List DirEntry) : (sortedByName l).Perm l := by
  induction l with
  | nil => exact List.Perm.nil
  | cons x xs ih =>
    exact (insertByName_perm x (sortedByName xs)).trans (ih.cons x)

/-- Inserting into a list sorted by name keeps it sorted by name. -/
theorem insertByName_pairwise (e : DirEntry) (l : List DirEntry)
    (h : l.Pairwise fun a b => a.name ≤ b.name) :
    (insertByName e l).Pairwise fun a b => a.name ≤ b.name := by
  induction l with
  | nil => simp [insertByName]
  | cons x xs ih =>
    rcases List.pairwise_cons.mp h with ⟨hx, hxs⟩
    by_cases hex : strLe e.name x.name = true
    · have hle : e.name ≤ x.name := (strLe_iff_le _ _).mp hex
      simp only [insertByName, if_pos hex]
      refine List.pairwise_cons.mpr ⟨?_, h⟩
      intro y hy
      rcases List.mem_cons.mp hy with rfl | hy2
      · exact hle
      · exact le_trans hle (hx y hy2)
    · have hxe : x.name ≤ e.name := by
        have hne : ¬ e.name ≤ x.name := fun hc => hex ((strLe_iff_le _ _).mpr hc)
        exact le_of_not_le hne
      simp only [insertByName, if_neg hex]
      refine List.pairwise_cons.mpr ⟨?_, ih hxs⟩
      intro y hy
      have hmem : y ∈ e :: xs := (insertByName_perm e xs).mem_iff.mp hy
      rcases List.mem_cons.mp hmem with rfl | hy2
      · exact hxe
      · exact hx y hy2

/-- The result of sortedByName is sorted by name. -/
theorem sortedByName_pairwise (l : List DirEntry) :
    (sortedByName l).Pairwise fun a b => a.name ≤ b.name := by
  induction l with
  | nil => exact List.Pairwise.nil
  | cons x xs ih => exact insertByName_pairwise x (sortedByName xs) ih

/-! ### Effect-shape lemmas for the concatenator -/

/-- Every effect of find_videos is a console print. -/
theorem find_videos_effs (d : String) (lst : Option (List DirEntry)) :
    ∀ e ∈ (find_videos d lst).1, ∃ m, e = CEff.print m := by
  cases lst with
  | none =>
    intro e he
    simp only [find_videos, List.mem_singleton] at he
    exact ⟨_, he⟩
  | some entries =>
    intro e he
    simp [find_videos] at he

/-- Every effect of sort_videos_by_name is a console print. -/
theorem sort_videos_effs (files : List DirEntry) :
    ∀ e ∈ (sort_videos_by_name files).1, ∃ m, e = CEff.print m := by
  intro e he
  simp only [sort_videos_by_name] at he
  rcases List.mem_cons.mp he with rfl | hm
  · exact ⟨_, rfl⟩
  · rcases List.mem_map.mp hm with ⟨p, _, rfl⟩
    exact ⟨_, rfl⟩

/-- Every effect of create_concat_file is the manifest write or a print. -/
theorem create_concat_file_effs (files : List DirEntry) (cf : String) :
    ∀ e ∈ create_concat_file files cf,
      e = CEff.writeFile cf (concatFileContent files) ∨ ∃ m, e = CEff.print m := by
  intro e he
  rcases List.mem_cons.mp he with rfl | he2
  · exact Or.inl rfl
  · rcases List.mem_singleton.mp he2 with rfl
    exact Or.inr ⟨_, rfl⟩

/-- Every effect of concat_videos is a print or the ffmpeg invocation. -/
theorem concat_videos_effs (i s : Bool) (cf o : String) :
    ∀ e ∈ (concat_videos i s cf o).1,
      (∃ m, e = CEff.print m) ∨ e = CEff.runFfmpeg cf o := by
  intro e he
  cases i <;> cases s <;>
    simp [concat_videos, ffmpegMissingMsgs] at he <;>
    rcases he with rfl | rfl | rfl | rfl | rfl <;> first
      | exact Or.inl ⟨_, rfl⟩
      | exact Or.inr rfl

/-- Auxiliary: a Boolean filter and its negation partition the length of a
list of directory entries. -/
theorem length_filter_partition (p : DirEntry → Bool) (l : List DirEntry) :
    (l.filter p).length + (l.filter fun e => !p e).length = l.length := by
  induction l with
  | nil => rfl
  | cons x xs ih => by_cases h : p x = true <;> simp [List.filter_cons, h] <;> omega

/-- Claim C1: the manifest built by the concatenator holds exactly one line
of the form file quote absolute-path quote per scanned input file (the line
multiset equals that of the inputs), the files appear in lexicographically
sorted order of their names, and the manifest content is the deterministic
join of those lines in that order. -/
theorem manifest_sorted_one_line_per_file (l : List DirEntry) :
    ((sortedByName l).map manifestLine).Perm (l.map manifestLine) ∧
    List.Pairwise (fun a b : DirEntry => a.name ≤ b.name) (sortedByName l) ∧
    concatFileContent (sortedByName l) =
      String.join ((sortedByName l).map manifestLine) :=
  ⟨(sortedByName_perm l).map manifestLine, sortedByName_pairwise l, rfl⟩

/-- Claim C2: on an existing directory whose entries are all regular files,
N of them with a recognized video extension and M with an unrecognized one,
find_videos returns exactly the N recognized files. -/
theorem find_videos_exactly_recognized (d : String) (entries : List DirEntry)
    (N M : Nat)
    (hfiles : ∀ e ∈ entries, e.isFile = true)
    (hN : N = (entries.filter fun e => recognizedName e.name).length)
    (hM : M = (entries.filter fun e => !recognizedName e.name).length) :
    (find_videos d (some entries)).2 =
      entries.filter (fun e => recognizedName e.name) ∧
    (find_videos d (some entries)).2.length = N ∧
    N + M = entries.length := by
  have hfe : (find_videos d (some entries)).2 =
      entries.filter fun e => recognizedName e.name := by
    show entries.filter (fun e => e.isFile && recognizedName e.name) = _
    apply List.filter_congr
    intro x hx
    simp [hfiles x hx]
  refine ⟨hfe, by rw [hfe, hN], ?_⟩
  rw [hN, hM]
  exact length_filter_partition (fun e => recognizedName e.name) entries

/-- Witness for the find_videos claim at a concrete two-file listing. -/
theorem find_videos_exactly_recognized_witness :
    (find_videos "tmp" (some sampleScanEntries)).2 =
      sampleScanEntries.filter (fun e => recognizedName e.name) ∧
    (find_videos "tmp" (some sampleScanEntries)).2.length = 1 ∧
    1 + 1 = sampleScanEntries.length :=
  find_videos_exactly_recognized "tmp" sampleScanEntries 1 1
    (by decide) (by decide) (by decide)

/-- Claim C10: the extension check of find_videos is case-insensitive: any
regular file of the listing whose lowercased suffix is in the allow-list is
returned, and in particular the names CLIP.MP4 and clip.Mp4 are recognized. -/
theorem scanner_case_insensitive (d : String) (entries : List DirEntry)
    (e : DirEntry) (he : e ∈ entries) (hf : e.isFile = true)
    (hext : VIDEO_EXTENSIONS.contains (lowerStr (pathSuffix e.name)) = true) :
    e ∈ (find_videos d (some entries)).2 ∧
    recognizedName "CLIP.MP4" = true ∧ recognizedName "clip.Mp4" = true := by
  refine ⟨?_, by decide, by decide⟩
  show e ∈ entries.filter _
  rw [List.mem_filter]
  refine ⟨he, ?_⟩
  simp only [hf, Bool.true_and, recognizedName]
  exact hext

/-- Witness for the case-insensitive scan at the name CLIP.MP4. -/
theorem scanner_case_insensitive_witness :
    upperCaseEntry ∈ (find_videos "tmp" (some [upperCaseEntry])).2 ∧
    recognizedName "CLIP.MP4" = true ∧ recognizedName "clip.Mp4" = true :=
  scanner_case_insensitive "tmp" [upperCaseEntry] upperCaseEntry
    (by decide) (by decide) (by decide)

/-- Claim C3: a run of the concatenator on a missing directory or on an
empty directory exits with code 1, and its whole effect trace consists of
console prints only, so no manifest and no output file is created. -/
theorem empty_or_missing_dir_no_creation (w : ConcatWorld) (a : ConcatArgs)
    (h : w.listing = none ∨ w.listing = some []) :
    (concatMain w a).2 = 1 ∧
    ∀ e ∈ (concatMain w a).1, ∃ m, e = CEff.print m := by
  obtain ⟨lst, fi, fs⟩ := w
  rcases h with h | h <;> rcases h with rfl <;> constructor
  · rfl
  · intro e he
    simp [concatMain, find_videos] at he
    rcases he with rfl | rfl | rfl | rfl <;> exact ⟨_, rfl⟩
  · rfl
  · intro e he
    simp [concatMain, find_videos] at he
    rcases he with rfl | rfl | rfl <;> exact ⟨_, rfl⟩

/-- Witness for the missing-directory claim at a concrete world. -/
theorem empty_or_missing_dir_no_creation_witness :
    (concatMain ⟨none, true, true⟩ ⟨"tmp", "merged_video.mp4", false⟩).2 = 1 ∧
    ∀ e ∈ (concatMain ⟨none, true, true⟩ ⟨"tmp", "merged_video.mp4", false⟩).1,
      ∃ m, e = CEff.print m :=
  empty_or_missing_dir_no_creation ⟨none, true, true⟩
    ⟨"tmp", "merged_video.mp4", false⟩ (Or.inl rfl)

/-- Evaluation of concatMain when at least one video is found: the trace is
the base trace followed, on full success, by the optional manifest removal,
and the exit code reflects the concat_videos outcome. -/
theorem concatMain_eq_of_found (lst : Option (List DirEntry)) (fi fs : Bool)
    (ad ao : String) (ak : Bool)
    (hne : (find_videos ad lst).2 ≠ []) :
    concatMain ⟨lst, fi, fs⟩ ⟨ad, ao, ak⟩ =
      if (concat_videos fi fs "concat_list.txt" ao).2 = false then
        (concatRunBase lst fi fs ad ao, 1)
      else if ak then (concatRunBase lst fi fs ad ao, 0)
      else (concatRunBase lst fi fs ad ao ++
        [CEff.removeFile "concat_list.txt",
         CEff.print "結合リストファイルを削除しました: concat_list.txt"], 0) := by
  have hcond : ¬ ((find_videos ad lst).2.isEmpty = true) := by
    intro hh
    exact hne (List.isEmpty_iff.mp hh)
  simp only [concatMain, concatRunBase, if_neg hcond]

/-- Every element of the base trace of a run is a print, the manifest
write, or the ffmpeg invocation. -/
theorem concatRunBase_effs (lst : Option (List DirEntry)) (fi fs : Bool)
    (ad ao : String) :
    ∀ e ∈ concatRunBase lst fi fs ad ao,
      (∃ m, e = CEff.print m) ∨
      e = CEff.writeFile "concat_list.txt"
            (concatFileContent (sort_videos_by_name (find_videos ad lst).2).2) ∨
      e = CEff.runFfmpeg "concat_list.txt" ao := by
  intro e he
  simp only [concatRunBase, List.cons_append, List.nil_append, List.mem_cons,
    List.append_assoc, List.mem_append, List.mem_singleton] at he
  rcases he with rfl | he | rfl | he | he | he
  · exact Or.inl ⟨_, rfl⟩
  · exact Or.inl (find_videos_effs ad lst e he)
  · exact Or.inl ⟨_, rfl⟩
  · exact Or.inl (sort_videos_effs (find_videos ad lst).2 e he)
  · rcases create_concat_file_effs (sort_videos_by_name (find_videos ad lst).2).2
      "concat_list.txt" e he with h | h
    · exact Or.inr (Or.inl h)
    · exact Or.inl h
  · rcases concat_videos_effs fi fs "concat_list.txt" ao e he with h | h
    · exact Or.inl h
    · exact Or.inr (Or.inr h)

/-- The base trace never removes a file. -/
theorem concatRunBase_no_removeFile (lst : Option (List DirEntry)) (fi fs : Bool)
    (ad ao : String) (p : String) :
    CEff.removeFile p ∉ concatRunBase lst fi fs ad ao := by
  intro hmem
  rcases concatRunBase_effs lst fi fs ad ao _ hmem with ⟨m, hm⟩ | hm | hm <;>
    simp at hm

/-- Claim C9: on every successful run of the concatenator the exit code is
0, the manifest file is removed exactly when the keep-list flag is absent,
and with the flag set no file removal happens at all. -/
theorem manifest_removed_iff_not_keep (w : ConcatWorld) (a : ConcatArgs)
    (hne : (find_videos a.inputDir w.listing).2 ≠ [])
    (hi : w.ffmpegInstalled = true) (hs : w.ffmpegSucceeds = true) :
    (concatMain w a).2 = 0 ∧
    (CEff.removeFile "concat_list.txt" ∈ (concatMain w a).1 ↔ a.keepList = false) ∧
    (a.keepList = true → ∀ p, CEff.removeFile p ∉ (concatMain w a).1) := by
  obtain ⟨lst, fi, fs⟩ := w
  obtain ⟨ad, ao, ak⟩ := a
  subst hi
  subst hs
  have heq := concatMain_eq_of_found lst true true ad ao ak hne
  have hcv : (concat_videos true true "concat_list.txt" ao).2 = true := rfl
  rw [hcv] at heq
  simp only [Bool.true_eq_false, if_false] at heq
  cases ak with
  | true =>
    simp only [if_true] at heq
    rw [heq]
    refine ⟨rfl, ?_, ?_⟩
    · simp only [Bool.true_eq_false, iff_false]
      exact concatRunBase_no_removeFile lst true true ad ao "concat_list.txt"
    · intro _ p
      exact concatRunBase_no_removeFile lst true true ad ao p
  | false =>
    simp only [Bool.false_eq_true, if_false] at heq
    rw [heq]
    refine ⟨rfl, ?_, ?_⟩
    · simp
    · intro hc
      cases hc

/-- Witness for the manifest-removal claim on a concrete successful run
without the keep-list flag. -/
theorem manifest_removed_iff_not_keep_witness :
    (concatMain ⟨some sampleRunListing, true, true⟩
        ⟨"tmp", "merged_video.mp4", false⟩).2 = 0 ∧
    (CEff.removeFile "concat_list.txt" ∈
        (concatMain ⟨some sampleRunListing, true, true⟩
          ⟨"tmp", "merged_video.mp4", false⟩).1 ↔ false = false) ∧
    (false = true → ∀ p, CEff.removeFile p ∉
        (concatMain ⟨some sampleRunListing, true, true⟩
          ⟨"tmp", "merged_video.mp4", false⟩).1) :=
  manifest_removed_iff_not_keep ⟨some sampleRunListing, true, true⟩
    ⟨"tmp", "merged_video.mp4", false⟩ (by decide) rfl rfl

/-- Counterexample to claim C5 as stated: in a run where ffmpeg is absent,
the process does exit with code 1, but the manifest write effect is present
in the trace, so the tool check is not performed before the manifest is
written (it happens only inside the concatenation step). -/
theorem ffmpeg_check_not_up_front_cex :
    (ConcatWorld.mk (some [singleVideoEntry]) false true).ffmpegInstalled = false ∧
    (concatMain ⟨some [singleVideoEntry], false, true⟩
        ⟨"tmp", "merged_video.mp4", false⟩).2 = 1 ∧
    CEff.writeFile "concat_list.txt" (concatFileContent [singleVideoEntry]) ∈
      (concatMain ⟨some [singleVideoEntry], false, true⟩
        ⟨"tmp", "merged_video.mp4", false⟩).1 := by
  refine ⟨rfl, by decide, by decide⟩

/-- With ffmpeg absent, no part of the run trace is an ffmpeg invocation. -/
theorem concatRunBase_no_runFfmpeg (lst : Option (List DirEntry)) (fs : Bool)
    (ad ao cf o : String) :
    CEff.runFfmpeg cf o ∉ concatRunBase lst false fs ad ao := by
  intro hmem
  simp only [concatRunBase, List.cons_append, List.nil_append, List.mem_cons,
    List.append_assoc, List.mem_append, List.mem_singleton] at hmem
  rcases hmem with h | h | h | h | h | h
  · simp at h
  · rcases find_videos_effs ad lst _ h with ⟨m, hm⟩
    simp at hm
  · simp at h
  · rcases sort_videos_effs (find_videos ad lst).2 _ h with ⟨m, hm⟩
    simp at hm
  · rcases create_concat_file_effs (sort_videos_by_name (find_videos ad lst).2).2
      "concat_list.txt" _ h with hm | ⟨m, hm⟩ <;> simp at hm
  · have hmsgs : CEff.runFfmpeg cf o ∈ ffmpegMissingMsgs := h
    simp [ffmpegMissingMsgs] at hmsgs

/-- Claim C5 (amended): when ffmpeg is absent and video files were found,
the presence check happens inside the concatenation step, after the
manifest has been written: the run exits with code 1, the trace ends with
the installation-hint prints, ffmpeg is never invoked, and the manifest
write is part of the trace. -/
theorem ffmpeg_missing_hints_exit (w : ConcatWorld) (a : ConcatArgs)
    (hi : w.ffmpegInstalled = false)
    (hne : (find_videos a.inputDir w.listing).2 ≠ []) :
    (concatMain w a).2 = 1 ∧
    (concatMain w a).1 =
      (CEff.print ("ディレクトリを検索中: " ++ a.inputDir) ::
        (find_videos a.inputDir w.listing).1 ++
        [CEff.print ("\n" ++ toString (find_videos a.inputDir w.listing).2.length ++
          " 個の動画ファイルが見つかりました\n")] ++
        (sort_videos_by_name (find_videos a.inputDir w.listing).2).1 ++
        create_concat_file (sort_videos_by_name (find_videos a.inputDir w.listing).2).2
          "concat_list.txt") ++
      ffmpegMissingMsgs ∧
    (∀ cf o, CEff.runFfmpeg cf o ∉ (concatMain w a).1) ∧
    CEff.writeFile "concat_list.txt"
        (concatFileContent (sort_videos_by_name (find_videos a.inputDir w.listing).2).2) ∈
      (concatMain w a).1 := by
  obtain ⟨lst, fi, fs⟩ := w
  obtain ⟨ad, ao, ak⟩ := a
  subst hi
  have heq := concatMain_eq_of_found lst false fs ad ao ak hne
  rw [if_pos (show (concat_videos false fs "concat_list.txt" ao).2 = false from rfl)] at heq
  rw [heq]
  refine ⟨rfl, ?_, ?_, ?_⟩
  · show concatRunBase lst false fs ad ao = _
    simp [concatRunBase, concat_videos]
  · intro cf o
    exact concatRunBase_no_runFfmpeg lst fs ad ao cf o
  · simp [concatRunBase, create_concat_file]

/-- Witness for the amended ffmpeg-missing claim at a concrete world. -/
theorem ffmpeg_missing_hints_exit_witness :
    (concatMain ⟨some [singleVideoEntry], false, true⟩ ⟨"tmp", "out.mp4", false⟩).2 = 1 :=
  (ffmpeg_missing_hints_exit ⟨some [singleVideoEntry], false, true⟩
    ⟨"tmp", "out.mp4", false⟩ rfl (by decide)).1

/-- When no next_chunk call ever yields a response, the poll loop never
terminates (the embedding returns none). -/
theorem pollChunks_none_of_no_response (steps : List ChunkStep)
    (h : ∀ t ∈ steps, t.response = none) : pollChunks steps = none := by
  induction steps with
  | nil => rfl
  | cons s rest ih =>
    have hs : s.response = none := h s (List.mem_cons_self s rest)
    simp only [pollChunks, hs,
      ih (fun t ht => h t (List.mem_cons_of_mem s ht))]

/-- When the first response appears at index k, the poll loop runs exactly
k + 1 iterations, emits the progress prints of those iterations in order,
and returns that response. -/
theorem pollChunks_some (steps : List ChunkStep) (k : Nat) (s : ChunkStep)
    (r : String) (hk : steps[k]? = some s) (hr : s.response = some r)
    (hbefore : ∀ i t, i < k → steps[i]? = some t → t.response = none) :
    pollChunks steps = some (k + 1, progressPrints (steps.take (k + 1)), r) := by
  induction steps generalizing k with
  | nil => simp at hk
  | cons x rest ih =>
    cases k with
    | zero =>
      have hx : x = s := by simpa using hk
      subst hx
      simp only [pollChunks, hr]
      simp [progressPrints]
    | succ k =>
      have hx : x.response = none := hbefore 0 x (Nat.succ_pos k) (by simp)
      simp only [pollChunks, hx]
      rw [ih k (by simpa using hk)
        (fun i t hi ht => hbefore (i + 1) t (Nat.succ_lt_succ hi) (by simpa using ht))]
      simp [progressPrints]

/-- Claim C8: the upload loop polls next_chunk repeatedly, printing the
percentage progress of each iteration whose status is set, and terminates
exactly when a response becomes available: it diverges when no call ever
returns a response, and when the first response arrives at index k it stops
after exactly k + 1 calls with that response. -/
theorem upload_poll_loop (steps : List ChunkStep) :
    ((∀ t ∈ steps, t.response = none) → pollChunks steps = none) ∧
    (∀ k s r, steps[k]? = some s → s.response = some r →
      (∀ i t, i < k → steps[i]? = some t → t.response = none) →
      pollChunks steps = some (k + 1, progressPrints (steps.take (k + 1)), r)) :=
  ⟨pollChunks_none_of_no_response steps,
   fun k s r hk hr hb => pollChunks_some steps k s r hk hr hb⟩

/-- Witness for the poll-loop claim: two iterations, the second of which
completes. -/
theorem upload_poll_loop_witness :
    pollChunks sampleChunkSteps =
      some (1 + 1, progressPrints (sampleChunkSteps.take (1 + 1)), "vid123") :=
  (upload_poll_loop sampleChunkSteps).2 1 ⟨some 100, some "vid123"⟩ "vid123"
    (by decide) rfl
    (fun i t hi ht => by
      have hi0 : i = 0 := Nat.lt_one_iff.mp hi
      subst hi0
      have ht0 : (⟨some 50, none⟩ : ChunkStep) = t := by
        simpa [sampleChunkSteps] using ht
      rw [← ht0])

/-- Claim C7: the authentication step loads the cached credential whenever
the cache file is present; with no cache it runs the interactive flow and
persists the result; with a present but expired credential it refreshes
when a refresh token is available and runs the flow otherwise, persisting
the result in both cases; a valid cached credential is used as is. -/
theorem auth_cache_refresh_flow (cache : Option Credentials)
    (rc fc : Credentials) :
    (∀ c, cache = some c →
      UEff.loadTokenCache ∈ (get_authenticated_service cache rc fc).1) ∧
    (cache = none →
      (get_authenticated_service cache rc fc).1 =
        [UEff.runOAuthFlow, UEff.saveTokenCache fc, UEff.buildService] ∧
      (get_authenticated_service cache rc fc).2 = fc) ∧
    (∀ c, cache = some c → c.expired = true → c.hasRefreshToken = true →
      (get_authenticated_service cache rc fc).1 =
        [UEff.loadTokenCache, UEff.refreshCredentials,
         UEff.saveTokenCache rc, UEff.buildService] ∧
      (get_authenticated_service cache rc fc).2 = rc) ∧
    (∀ c, cache = some c → c.expired = true → c.hasRefreshToken = false →
      (get_authenticated_service cache rc fc).1 =
        [UEff.loadTokenCache, UEff.runOAuthFlow,
         UEff.saveTokenCache fc, UEff.buildService] ∧
      (get_authenticated_service cache rc fc).2 = fc) ∧
    (∀ c, cache = some c → c.valid = true →
      (get_authenticated_service cache rc fc).1 =
        [UEff.loadTokenCache, UEff.buildService] ∧
      (get_authenticated_service cache rc fc).2 = c) := by
  refine ⟨?_, ?_, ?_, ?_, ?_⟩
  · intro c hc
    subst hc
    by_cases hv : c.valid = true
    · simp [get_authenticated_service, hv]
    · by_cases hb : (c.expired && c.hasRefreshToken) = true <;>
        simp [get_authenticated_service, hv, hb]
  · intro hc
    subst hc
    exact ⟨rfl, rfl⟩
  · intro c hc hexp hrt
    subst hc
    have hv : c.valid = false := by simp [Credentials.valid, hexp]
    constructor <;> simp [get_authenticated_service, hv, hexp, hrt]
  · intro c hc hexp hrt
    subst hc
    have hv : c.valid = false := by simp [Credentials.valid, hexp]
    constructor <;> simp [get_authenticated_service, hv, hexp, hrt]
  · intro c hc hv
    subst hc
    constructor <;> simp [get_authenticated_service, hv]

/-- Witness for the authentication claim: an expired cached credential with
a refresh token is refreshed and persisted. -/
theorem auth_cache_refresh_flow_witness :
    (get_authenticated_service (some expiredCred) refreshedCredW flowCredW).1 =
      [UEff.loadTokenCache, UEff.refreshCredentials,
       UEff.saveTokenCache refreshedCredW, UEff.buildService] ∧
    (get_authenticated_service (some expiredCred) refreshedCredW flowCredW).2 =
      refreshedCredW :=
  (auth_cache_refresh_flow (some expiredCred) refreshedCredW flowCredW).2.2.1
    expiredCred rfl rfl rfl

/-- Claim C4: when the positional video file does not exist, the uploader
exits with code 1 and its trace is the single error print, so no
authentication, network, or upload effect is performed. -/
theorem uploader_missing_file_no_network (w : UploadWorld) (a : UploadArgs)
    (h : w.fileExists = false) :
    uploadMain w a =
      some ([UEff.print ("エラー: ファイルが見つかりません: " ++ a.videoFile)], 1) ∧
    ∀ effs n, uploadMain w a = some (effs, n) →
      UEff.refreshCredentials ∉ effs ∧ UEff.runOAuthFlow ∉ effs ∧
      UEff.buildService ∉ effs ∧ UEff.loadTokenCache ∉ effs ∧
      (∀ t d c p mk, UEff.insertRequest t d c p mk ∉ effs) := by
  have heq : uploadMain w a =
      some ([UEff.print ("エラー: ファイルが見つかりません: " ++ a.videoFile)], 1) := by
    simp [uploadMain, h]
  refine ⟨heq, ?_⟩
  intro effs n hsome
  rw [heq] at hsome
  have heffs : effs = [UEff.print ("エラー: ファイルが見つかりません: " ++ a.videoFile)] :=
    congrArg Prod.fst (Option.some.inj hsome.symm)
  subst heffs
  refine ⟨by simp, by simp, by simp, by simp, ?_⟩
  intro t d c p mk
  simp

/-- Witness for the missing-file claim at a concrete uploader world. -/
theorem uploader_missing_file_no_network_witness :
    uploadMain ⟨false, none, refreshedCredW, flowCredW, []⟩
        ⟨"clip1.mov", none, "", "private"⟩ =
      some ([UEff.print ("エラー: ファイルが見つかりません: " ++ "clip1.mov")], 1) :=
  (uploader_missing_file_no_network ⟨false, none, refreshedCredW, flowCredW, []⟩
    ⟨"clip1.mov", none, "", "private"⟩ rfl).1

/-- Claim C6: when no --title flag is given, the title submitted with the
upload request is the base name of the input file without its extension;
in particular the input clip1.mov yields the title clip1. -/
theorem default_title_from_basename (w : UploadWorld) (a : UploadArgs)
    (hex : w.fileExists = true) (ht : a.title = none)
    (n : Nat) (le : List UEff) (r : String)
    (hpoll : pollChunks w.chunkSteps = some (n, le, r)) :
    (∃ effs, uploadMain w a = some (effs, 0) ∧
      UEff.insertRequest (splitextRoot (basename a.videoFile)) a.description
        "22" a.privacy false ∈ effs) ∧
    deriveTitle none "clip1.mov" = "clip1" := by
  refine ⟨?_, by decide⟩
  have hmain : uploadMain w a =
      some ((get_authenticated_service w.tokenCache w.refreshedCred w.flowCred).1 ++
        (UEff.insertRequest (splitextRoot (basename a.videoFile)) a.description
            "22" a.privacy false ::
          UEff.print ("アップロード中: " ++ a.videoFile) :: le ++
          [UEff.print ("アップロード完了! 動画ID: " ++ r),
           UEff.print ("URL: https://www.youtube.com/watch?v=" ++ r)]), 0) := by
    simp [uploadMain, hex, ht, deriveTitle, upload_video, hpoll]
  exact ⟨_, hmain, by simp⟩

/-- Witness for the title-defaulting claim on a concrete run uploading
clip1.mov without a --title flag. -/
theorem default_title_from_basename_witness :
    (∃ effs,
      uploadMain ⟨true, none, refreshedCredW, flowCredW, [⟨some 100, some "vid123"⟩]⟩
          ⟨"clip1.mov", none, "", "private"⟩ = some (effs, 0) ∧
      UEff.insertRequest (splitextRoot (basename "clip1.mov")) "" "22" "private" false ∈ effs) ∧
    deriveTitle none "clip1.mov" = "clip1" :=
  default_title_from_basename
    ⟨true, none, refreshedCredW, flowCredW, [⟨some 100, some "vid123"⟩]⟩
    ⟨"clip1.mov", none, "", "private"⟩ rfl rfl
    1 [UEff.print ("進捗: " ++ toString 100 ++ "%")] "vid123" rfl

end GPhotoToYouTube
